import Mathlib

/-!
Verification of the ReadParliament aggregation engine.

This file is a shallow embedding of the repository's core logic:
`data_processor.py` (division fetching loop, date filtering, vote
aggregation) and `output_writer.py` (vote-matrix materialization),
together with theorems settling the specified properties.

Modelling conventions:
* Python `dict[int, V]` registries become association lists
  `List (Nat × V)` with `List.lookup`; `dict[k] = v` becomes `dictSet`
  (replace in place if the key exists, else append), matching Python's
  insertion-order semantics.
* `datetime` values become a `Datetime` record compared
  component-lexicographically, exactly as Python compares `datetime`s.
* The network fetch and the JSON decode of one division are modelled by
  a `Fetched` input per division number: either a fetch failure
  (`requests.RequestException`) or a `RawDivision` of optional fields,
  which `parseDivisionDto` turns into a `DivisionDto` or a decode
  error (a missing required field raises `TypeError` in the dataclass
  constructor; a malformed member record fails the whole division's
  decode, as in `_parse_division_dto`).
* Console logging of duplicate votes becomes an accumulated `conflicts`
  list in the processor state.
* An uncaught exception inside `_add_member_vote_category`
  (`name_parts[0]` raises `IndexError` when a member's name is empty or
  all whitespace) is modelled by `addOneMember` returning `none`; the
  enclosing `except` keeps all mutations made before the raise, which
  the category/division drivers reproduce by returning the state
  reached so far together with a success flag.
-/

/-! ## Datetimes (Python `datetime`, compared lexicographically) -/

structure Datetime where
  year : Nat
  month : Nat
  day : Nat
  hour : Nat := 0
  minute : Nat := 0
  second : Nat := 0
deriving DecidableEq, Repr

/-- Python `datetime.__lt__`: lexicographic on components. -/
def dtLt (a b : Datetime) : Bool :=
  if a.year < b.year then true else if b.year < a.year then false
  else if a.month < b.month then true else if b.month < a.month then false
  else if a.day < b.day then true else if b.day < a.day then false
  else if a.hour < b.hour then true else if b.hour < a.hour then false
  else if a.minute < b.minute then true else if b.minute < a.minute then false
  else decide (a.second < b.second)

/-- Python `datetime.__le__`, expressed through `dtLt` totality. -/
def dtLe (a b : Datetime) : Bool := !dtLt b a

/-! ## Vote codes (`models.Vote`, an `IntEnum`) -/

inductive Vote where
  | Missing
  | AyeTeller
  | Aye
  | Both
  | No
  | NoTeller
deriving DecidableEq, Repr

/-- Integer codes of `models.Vote`; persisted verbatim in output. -/
def Vote.toInt : Vote → Int
  | .Missing => -9
  | .AyeTeller => 1
  | .Aye => 2
  | .Both => 3
  | .No => 4
  | .NoTeller => 5

/-! ## DTOs decoded from the API (`models.MemberDto`, `models.DivisionDto`) -/

structure MemberDto where
  MemberId : Nat
  Name : String
  Party : String
  SubParty : Option String := none
  PartyColour : Option String := none
  PartyAbbreviation : Option String := none
  MemberFrom : Option String := none
  ListAs : Option String := none
  ProxyName : Option String := none
deriving DecidableEq, Repr

structure DivisionDto where
  DivisionId : Nat
  Date : Datetime
  Title : String
  AyeCount : Nat
  NoCount : Nat
  Ayes : List MemberDto := []
  AyeTellers : List MemberDto := []
  Noes : List MemberDto := []
  NoTellers : List MemberDto := []
  NoVoteRecorded : List MemberDto := []
deriving DecidableEq, Repr

/-! ## Internal records (`models.DivisionDat`, `models.MemberDat`) -/

structure DivisionDat where
  division_id : Nat
  date : Datetime
  bill_name : String
deriving DecidableEq, Repr

structure MemberDat where
  member_id : Nat
  first_name : String
  surname : String
  party : String
  division_votes : List (Nat × Vote) := []
deriving DecidableEq, Repr

/-- Fields of the duplicate-vote message printed by
`_add_member_vote_category`: MPid, DivisionId, the attempted vote, and
the existing stored vote. -/
structure Conflict where
  member_id : Nat
  division_id : Nat
  vote : Vote
  existing : Vote
deriving DecidableEq, Repr

/-- State of a `DataProcessor`: the two registries of `__init__`, plus
the accumulated duplicate-vote log (printed in the source). -/
structure St where
  divisions : List (Nat × DivisionDat) := []
  members : List (Nat × MemberDat) := []
  conflicts : List Conflict := []
deriving DecidableEq, Repr

/-- Empty processor state (`DataProcessor.__init__`). -/
def emptySt : St := {}

/-! ## Dictionary helpers -/

/-- Python `d[k] = v`: replace in place when the key exists, else
append (insertion-order preserving). -/
def dictSet {α : Type} (l : List (Nat × α)) (k : Nat) (v : α) : List (Nat × α) :=
  match l with
  | [] => [(k, v)]
  | (k', v') :: rest => if k' = k then (k, v) :: rest else (k', v') :: dictSet rest k v

/-- Vote stored for member `mp_id` on division `d`, if any. -/
def lookupVote (members : List (Nat × MemberDat)) (mp_id d : Nat) : Option Vote :=
  (List.lookup mp_id members).bind (fun md => List.lookup d md.division_votes)

/-! ## Name splitting and Python `or` -/

/-- Whitespace for Python `str.split` (ASCII subset). -/
def isPySpace (c : Char) : Bool :=
  c = ' ' || c = '\t' || c = '\n' || c = '\r' || c = '\x0b' || c = '\x0c'

/-- Python `s.split(maxsplit=1)`: strip leading whitespace, first token,
then the remainder after one whitespace run (verbatim, possibly with
trailing whitespace); `[]` when the string is empty or all whitespace. -/
def splitMaxsplit1 (s : String) : List String :=
  let cs := s.toList.dropWhile isPySpace
  if cs.isEmpty then []
  else
    let tok := cs.takeWhile (fun c => !isPySpace c)
    let rest := (cs.dropWhile (fun c => !isPySpace c)).dropWhile isPySpace
    if rest.isEmpty then [String.mk tok] else [String.mk tok, String.mk rest]

/-- Python `a or b` on an optional string and a string: `b` when `a` is
`None` or the empty string (both falsy), else the contents of `a`. -/
def pyOr (a : Option String) (b : String) : String :=
  match a with
  | some s => if s = "" then b else s
  | none => b

/-! ## Fetch/decode boundary (`api_client.read_json` + `_parse_division_dto`) -/

/-- Raw member record as decoded from JSON: every field may be absent. -/
structure RawMember where
  MemberId : Option Nat := none
  Name : Option String := none
  Party : Option String := none
  SubParty : Option String := none
  PartyColour : Option String := none
  PartyAbbreviation : Option String := none
  MemberFrom : Option String := none
  ListAs : Option String := none
  ProxyName : Option String := none
deriving DecidableEq, Repr

/-- Raw division document: required fields may be absent, category
lists absent/null are already normalised to `[]` (as in
`_parse_division_dto`). Unknown JSON fields are dropped before this
point (`_filter_dataclass_fields`), so they do not appear here. -/
structure RawDivision where
  DivisionId : Option Nat := none
  Date : Option Datetime := none
  Title : Option String := none
  AyeCount : Option Nat := none
  NoCount : Option Nat := none
  Ayes : List RawMember := []
  AyeTellers : List RawMember := []
  Noes : List RawMember := []
  NoTellers : List RawMember := []
  NoVoteRecorded : List RawMember := []
deriving DecidableEq, Repr

/-- Constructing a `MemberDto` from a raw record: a missing required
field raises `TypeError` in the dataclass constructor. -/
def parseMemberDto (r : RawMember) : Except String MemberDto :=
  match r.MemberId, r.Name, r.Party with
  | some i, some n, some p =>
      .ok { MemberId := i, Name := n, Party := p, SubParty := r.SubParty,
            PartyColour := r.PartyColour, PartyAbbreviation := r.PartyAbbreviation,
            MemberFrom := r.MemberFrom, ListAs := r.ListAs, ProxyName := r.ProxyName }
  | _, _, _ => .error "missing required MemberDto field"

def parseMembers (rs : List RawMember) : Except String (List MemberDto) :=
  rs.mapM parseMemberDto

/-- Model of `_parse_division_dto`: member lists are parsed first (a
malformed member record fails the whole division), then the required
`DivisionDto` fields are checked. Any failure is the decode error
caught by the per-division `except` clause. -/
def parseDivisionDto (r : RawDivision) : Except String DivisionDto := do
  let ayes ← parseMembers r.Ayes
  let ayeTellers ← parseMembers r.AyeTellers
  let noes ← parseMembers r.Noes
  let noTellers ← parseMembers r.NoTellers
  let noVoteRecorded ← parseMembers r.NoVoteRecorded
  match r.DivisionId, r.Date, r.Title, r.AyeCount, r.NoCount with
  | some i, some d, some t, some ac, some nc =>
      .ok { DivisionId := i, Date := d, Title := t, AyeCount := ac, NoCount := nc,
            Ayes := ayes, AyeTellers := ayeTellers, Noes := noes,
            NoTellers := noTellers, NoVoteRecorded := noVoteRecorded }
  | _, _, _, _, _ => .error "missing required DivisionDto field"

/-- Outcome of `api_client.read_json` for one division number: either a
`requests.RequestException` or a raw JSON document. -/
inductive Fetched where
  | failure
  | success (raw : RawDivision)
deriving DecidableEq, Repr

/-! ## Vote aggregation (`_add_member_vote_category`) -/

/-- Body of the per-member loop of `_add_member_vote_category`. When
the member id is unseen, the record is created (name split, party via
Python `or`) and the vote stored in its fresh vote dict; when seen, the
vote is stored unless the division already has an entry, in which case
a duplicate-vote conflict is logged and the existing entry kept.
`none` models the `IndexError` raised by `name_parts[0]` when the name
splits to nothing; it occurs before any mutation for that member. -/
def addOneMember (st : St) (division_id : Nat) (member : MemberDto) (vote : Vote) :
    Option St :=
  match List.lookup member.MemberId st.members with
  | some md =>
      match List.lookup division_id md.division_votes with
      | some existing =>
          some { st with conflicts := st.conflicts ++
                   [⟨member.MemberId, division_id, vote, existing⟩] }
      | none =>
          some { st with members := (dictSet st.members member.MemberId
                   { md with division_votes := md.division_votes ++ [(division_id, vote)] }) }
  | none =>
      match splitMaxsplit1 member.Name with
      | [] => none
      | first_name :: rest =>
          some { st with members := st.members ++
                   [(member.MemberId,
                     { member_id := member.MemberId
                       first_name := first_name
                       surname := rest.headD ""
                       party := pyOr member.PartyAbbreviation member.Party
                       division_votes := [(division_id, vote)] })] }

/-- One call of `_add_member_vote_category`: fold `addOneMember` over
the category's member list. The `Bool` is `false` when a member raised
(the state reached so far is kept, the rest of the list is skipped, as
the exception propagates to the per-division `except`). -/
def addMemberVoteCategory (st : St) (division_id : Nat)
    (members : List MemberDto) (vote : Vote) : St × Bool :=
  match members with
  | [] => (st, true)
  | m :: rest =>
      match addOneMember st division_id m vote with
      | none => (st, false)
      | some st' => addMemberVoteCategory st' division_id rest vote

/-- The five category lists of a division with their vote codes, in the
call order of `read_divisions`. -/
def divisionCategories (dto : DivisionDto) : List (List MemberDto × Vote) :=
  [ (dto.Ayes, Vote.Aye)
  , (dto.AyeTellers, Vote.AyeTeller)
  , (dto.Noes, Vote.No)
  , (dto.NoTellers, Vote.NoTeller)
  , (dto.NoVoteRecorded, Vote.Missing) ]

/-- Apply the category calls in order; stop (keeping the state reached)
when one raises. -/
def applyCategories (st : St) (division_id : Nat) :
    List (List MemberDto × Vote) → St × Bool
  | [] => (st, true)
  | (ms, v) :: rest =>
      match addMemberVoteCategory st division_id ms v with
      | (st', true) => applyCategories st' division_id rest
      | (st', false) => (st', false)

/-! ## Per-division processing (`read_divisions` loop body) -/

/-- Store the division metadata (`self.divisions[id] = DivisionDat(...)`,
an unconditional dict assignment). -/
def storeDivision (st : St) (dto : DivisionDto) : St :=
  { st with divisions := (dictSet st.divisions dto.DivisionId
      ⟨dto.DivisionId, dto.Date, dto.Title⟩) }

/-- Processing of a successfully parsed division: the date filter
(`if dto.Date < date_start or dto.Date > date_end: continue`), then the
metadata store, then the five category calls. -/
def processParsed (st : St) (date_start date_end : Datetime) (dto : DivisionDto) : St :=
  if dtLt dto.Date date_start || dtLt date_end dto.Date then st
  else (applyCategories (storeDivision st dto) dto.DivisionId (divisionCategories dto)).1

/-- One iteration of the `read_divisions` loop: fetch failures and
decode failures are caught before any registry mutation. -/
def readOneDivision (st : St) (date_start date_end : Datetime) (f : Fetched) : St :=
  match f with
  | .failure => st
  | .success raw =>
      match parseDivisionDto raw with
      | .error _ => st
      | .ok dto => processParsed st date_start date_end dto

/-- The `read_divisions` loop over the fetched documents of the id
range, in ascending order. -/
def read_divisions (st : St) (date_start date_end : Datetime) (fs : List Fetched) : St :=
  fs.foldl (fun s f => readOneDivision s date_start date_end f) st

/-! ## Configuration (`config.py`) -/

/-- `datetime.fromisoformat(DATE_START)` with `DATE_START = "2019-12-11"`:
time-of-day defaults to midnight. -/
def DATE_START : Datetime := ⟨2019, 12, 11, 0, 0, 0⟩

/-- `datetime.fromisoformat(DATE_END)` with `DATE_END = "2024-07-03"`. -/
def DATE_END : Datetime := ⟨2024, 7, 3, 0, 0, 0⟩

/-! ## Output materialization (`output_writer.write_dat_file`) -/

/-- Zero-pad to two digits (`strftime` month/day). -/
def pad2 (n : Nat) : String := if n < 10 then "0" ++ toString n else toString n

/-- `date.strftime('%Y-%m-%d')` (years in the data are four-digit). -/
def formatDate (d : Datetime) : String :=
  toString d.year ++ "-" ++ pad2 d.month ++ "-" ++ pad2 d.day

/-- `sorted(members.keys())`: the column order of the vote matrix. -/
def datMpIds (members : List (Nat × MemberDat)) : List Nat :=
  List.insertionSort (· ≤ ·) (members.map Prod.fst)

/-- `sorted(divisions.keys())`: the row order of the vote matrix. -/
def datRowIds (divisions : List (Nat × DivisionDat)) : List Nat :=
  List.insertionSort (· ≤ ·) (divisions.map Prod.fst)

/-- `members[mp_id].division_votes.get(division_id, Vote.Missing)`.
(`mp_id` is always a key of `members` at the call site; absence maps to
`Missing` as well, which keeps the model total.) -/
def datCell (members : List (Nat × MemberDat)) (mp_id division_id : Nat) : Vote :=
  match List.lookup mp_id members with
  | some md => (List.lookup division_id md.division_votes).getD Vote.Missing
  | none => Vote.Missing

/-- Header row of `votematrix-2019.dat`. -/
def datHeader (members : List (Nat × MemberDat)) : List String :=
  ["rowid", "date", "voteno", "Bill"] ++ (datMpIds members).map (fun id => "mpid" ++ toString id)

/-- One data row of `votematrix-2019.dat`: four metadata fields then
one vote cell per member id in sorted order. -/
def datRow (members : List (Nat × MemberDat)) (division : DivisionDat) : List String :=
  [ toString division.division_id, formatDate division.date,
    toString division.division_id, division.bill_name ]
  ++ (datMpIds members).map
      (fun mp_id => toString (Vote.toInt (datCell members mp_id division.division_id)))

/-- Data rows of `votematrix-2019.dat`: one per division, ascending by
division id. -/
def write_dat_rows (divisions : List (Nat × DivisionDat))
    (members : List (Nat × MemberDat)) : List (List String) :=
  (datRowIds divisions).filterMap
    (fun id => (List.lookup id divisions).map (fun dv => datRow members dv))

/-! ## Spec-side definition for the date-filter refinement check -/

/-- Smaller-or-equal on the date components only (year, month, day). -/
def dateOnlyLe (a b : Datetime) : Bool :=
  if a.year < b.year then true else if b.year < a.year then false
  else if a.month < b.month then true else if b.month < a.month then false
  else decide (a.day ≤ b.day)

/-- Modelled from the spec: the date filter of section 4.2, "true iff
`range_start <= event_date <= range_end` (inclusive both ends,
date-only granularity — time-of-day is discarded for comparison)".
Stated here only to be compared against the source's filter. -/
def specAdmitDateOnly (event_date range_start range_end : Datetime) : Bool :=
  dateOnlyLe range_start event_date && dateOnlyLe event_date range_end

/-- Member registry `b` extends `a`: every stored member survives with
identical identity fields and all of its stored votes intact. -/
def membersExtend (a b : List (Nat × MemberDat)) : Prop :=
  ∀ id md, List.lookup id a = some md →
    ∃ md', List.lookup id b = some md' ∧
      md'.member_id = md.member_id ∧ md'.first_name = md.first_name ∧
      md'.surname = md.surname ∧ md'.party = md.party ∧
      ∀ d0 w, List.lookup d0 md.division_votes = some w →
        List.lookup d0 md'.division_votes = some w

/-- Is the member's name splittable (Python raises `IndexError` on
`name_parts[0]` otherwise)? -/
def nameOk (m : MemberDto) : Bool := !(splitMaxsplit1 m.Name).isEmpty

/-! ## The cross-registry invariant of C10 -/

/-- Every division id appearing in any member's vote mapping is a key
of the division registry. -/
def registryInv (st : St) : Prop :=
  ∀ id md, List.lookup id st.members = some md →
    ∀ d v, List.lookup d md.division_votes = some v →
      (List.lookup d st.divisions).isSome = true

/-! ## Concrete data used in witnesses and counterexamples -/

def dtJan1 : Datetime := ⟨2020, 1, 1, 0, 0, 0⟩

def dtJan2 : Datetime := ⟨2020, 1, 2, 0, 0, 0⟩

/-- Afternoon of the last day of the configured date range. -/
def dtNoonEnd : Datetime := ⟨2024, 7, 3, 14, 30, 0⟩

/-- A division dated in the afternoon of exactly `range_end`. -/
def dtoNoon : DivisionDto :=
  { DivisionId := 1, Date := dtNoonEnd, Title := "Late division", AyeCount := 0, NoCount := 0 }

/-- Two raw documents carrying the same division id 5 with different
dates and titles. -/
def rawFirst : RawDivision :=
  { DivisionId := some 5, Date := some dtJan1, Title := some "A",
    AyeCount := some 0, NoCount := some 0 }

def rawSecond : RawDivision :=
  { DivisionId := some 5, Date := some dtJan2, Title := some "B",
    AyeCount := some 0, NoCount := some 0 }

def rawJoSmith : RawMember :=
  { MemberId := some 7, Name := some "Jo Smith", Party := some "X" }

def rawJSmith : RawMember :=
  { MemberId := some 7, Name := some "J. Smith", Party := some "Y" }

def rawEvt9 : RawDivision :=
  { DivisionId := some 9, Date := some dtJan1, Title := some "First",
    AyeCount := some 1, NoCount := some 0, Ayes := [rawJoSmith] }

def rawEvt10 : RawDivision :=
  { DivisionId := some 10, Date := some dtJan2, Title := some "Second",
    AyeCount := some 1, NoCount := some 0, Ayes := [rawJSmith] }

/-- A raw division containing a malformed member record (no MemberId). -/
def rawBadMember : RawDivision :=
  { DivisionId := some 3, Date := some dtJan1, Title := some "T",
    AyeCount := some 1, NoCount := some 0, Ayes := [{ Name := some "X Y" }] }

def mJoSmith : MemberDto := { MemberId := 7, Name := "Jo Smith", Party := "X" }

def mJSmith : MemberDto := { MemberId := 7, Name := "J. Smith", Party := "Y" }

/-- A division whose source data lists member 7 both under Ayes and
under Noes. -/
def dtoDup : DivisionDto :=
  { DivisionId := 9, Date := dtJan1, Title := "T", AyeCount := 1, NoCount := 1,
    Ayes := [mJoSmith], Noes := [mJSmith] }

/-- A member whose party abbreviation is present but empty. -/
def mEmptyAbbr : MemberDto :=
  { MemberId := 7, Name := "Jo Smith", Party := "Labour", PartyAbbreviation := some "" }

/-- A member with a nonempty party abbreviation. -/
def mLab : MemberDto :=
  { MemberId := 7, Name := "Jo Smith", Party := "Labour", PartyAbbreviation := some "Lab" }

def mdJoStored : MemberDat :=
  { member_id := 7, first_name := "Jo", surname := "Smith", party := "X",
    division_votes := [(9, Vote.Aye)] }

/-- State after member 7 voted Aye on division 9. -/
def stJo : St :=
  { divisions := [(9, ⟨9, dtJan1, "T"⟩)], members := [(7, mdJoStored)], conflicts := [] }

/-- Parsed views of `rawFirst` / `rawSecond`. -/
def dtoA : DivisionDto :=
  { DivisionId := 5, Date := dtJan1, Title := "A", AyeCount := 0, NoCount := 0 }

def dtoB : DivisionDto :=
  { DivisionId := 5, Date := dtJan2, Title := "B", AyeCount := 0, NoCount := 0 }

/-- State produced by adding `mLab`'s Aye on division 1 to the empty state. -/
def stLab : St :=
  { members := [(7, ⟨7, "Jo", "Smith", "Lab", [(1, Vote.Aye)]⟩)] }

def mdEx (i : Nat) : MemberDat :=
  { member_id := i, first_name := "A", surname := "B", party := "P", division_votes := [] }

def divsA : List (Nat × DivisionDat) := [(20, ⟨20, dtJan1, "B20"⟩), (10, ⟨10, dtJan2, "B10"⟩)]

def divsB : List (Nat × DivisionDat) := [(10, ⟨10, dtJan2, "B10"⟩), (20, ⟨20, dtJan1, "B20"⟩)]

def memsA : List (Nat × MemberDat) := [(3, mdEx 3), (1, mdEx 1), (2, mdEx 2)]

def memsB : List (Nat × MemberDat) := [(1, mdEx 1), (2, mdEx 2), (3, mdEx 3)]

/-! ## Lookup lemmas -/

theorem lookup_cons {α : Type} (a k : Nat) (v : α) (rest : List (Nat × α)) :
    List.lookup a ((k, v) :: rest) = if a = k then some v else List.lookup a rest := by
  by_cases h : a = k
  · subst h; simp [List.lookup]
  · have hb : (a == k) = false := beq_eq_false_iff_ne.mpr h
    simp [List.lookup, hb, h]

theorem lookup_dictSet {α : Type} (l : List (Nat × α)) (k a : Nat) (v : α) :
    List.lookup a (dictSet l k v) = if a = k then some v else List.lookup a l := by
  induction l with
  | nil =>
      simp only [dictSet]
      rw [lookup_cons]
  | cons p rest ih =>
      obtain ⟨k', v'⟩ := p
      by_cases hk : k' = k
      · subst hk
        simp only [dictSet, if_pos rfl]
        by_cases ha : a = k' <;> simp [lookup_cons, ha]
      · simp only [dictSet, if_neg hk]
        by_cases ha : a = k'
        · have hak : a ≠ k := ha ▸ hk
          simp [lookup_cons, ha, hak, hk]
        · simp [lookup_cons, ha, ih]

theorem lookup_append_some {α : Type} {l1 l2 : List (Nat × α)} {a : Nat} {b : α}
    (h : List.lookup a l1 = some b) : List.lookup a (l1 ++ l2) = some b := by
  rw [List.lookup_append, h]; rfl

theorem lookup_append_none {α : Type} {l1 l2 : List (Nat × α)} {a : Nat}
    (h : List.lookup a l1 = none) : List.lookup a (l1 ++ l2) = List.lookup a l2 := by
  rw [List.lookup_append, h]; rfl

/-! ## State-evolution relation: what vote aggregation preserves -/

theorem membersExtend_refl (a : List (Nat × MemberDat)) : membersExtend a a :=
  fun _ md h => ⟨md, h, rfl, rfl, rfl, rfl, fun _ _ hw => hw⟩

theorem membersExtend_trans {a b c : List (Nat × MemberDat)}
    (h1 : membersExtend a b) (h2 : membersExtend b c) : membersExtend a c := by
  intro id md h
  obtain ⟨md', hl', e1, e2, e3, e4, hv⟩ := h1 id md h
  obtain ⟨md'', hl'', f1, f2, f3, f4, hv'⟩ := h2 id md' hl'
  exact ⟨md'', hl'', f1.trans e1, f2.trans e2, f3.trans e3, f4.trans e4,
    fun d0 w hw => hv' d0 w (hv d0 w hw)⟩

/-! ## Lemmas about `addOneMember` -/

theorem aom_extends {st : St} {d : Nat} {m : MemberDto} {v : Vote} {st' : St}
    (h : addOneMember st d m v = some st') :
    st'.divisions = st.divisions ∧ membersExtend st.members st'.members ∧
      st.conflicts ⊆ st'.conflicts := by
  unfold addOneMember at h
  cases hm : List.lookup m.MemberId st.members with
  | some md =>
      simp only [hm] at h
      cases hv : List.lookup d md.division_votes with
      | some ex =>
          simp only [hv, Option.some.injEq] at h
          subst h
          exact ⟨rfl, membersExtend_refl _, List.subset_append_left _ _⟩
      | none =>
          simp only [hv, Option.some.injEq] at h
          subst h
          refine ⟨rfl, ?_, fun c hc => hc⟩
          intro id md0 h0
          by_cases hid : id = m.MemberId
          · subst hid
            rw [hm] at h0
            injection h0 with h0
            subst h0
            refine ⟨{ md with division_votes := md.division_votes ++ [(d, v)] },
              ?_, rfl, rfl, rfl, rfl, ?_⟩
            · simp [lookup_dictSet]
            · intro d0 w hw
              exact lookup_append_some hw
          · exact ⟨md0, by simp [lookup_dictSet, hid, h0], rfl, rfl, rfl, rfl,
              fun _ _ hw => hw⟩
  | none =>
      simp only [hm] at h
      cases hs : splitMaxsplit1 m.Name with
      | nil => simp [hs] at h
      | cons fn rest =>
          simp only [hs, Option.some.injEq] at h
          subst h
          refine ⟨rfl, ?_, fun c hc => hc⟩
          intro id md0 h0
          exact ⟨md0, lookup_append_some h0, rfl, rfl, rfl, rfl, fun _ _ hw => hw⟩

theorem aom_untouched {st : St} {d : Nat} {m : MemberDto} {v : Vote} {st' : St}
    {id : Nat} (hne : m.MemberId ≠ id)
    (h : addOneMember st d m v = some st') :
    List.lookup id st'.members = List.lookup id st.members := by
  unfold addOneMember at h
  cases hm : List.lookup m.MemberId st.members with
  | some md =>
      simp only [hm] at h
      cases hv : List.lookup d md.division_votes with
      | some ex =>
          simp only [hv, Option.some.injEq] at h; subst h; rfl
      | none =>
          simp only [hv, Option.some.injEq] at h; subst h
          have hne' : id ≠ m.MemberId := fun he => hne he.symm
          simp [lookup_dictSet, hne']
  | none =>
      simp only [hm] at h
      cases hs : splitMaxsplit1 m.Name with
      | nil => simp [hs] at h
      | cons fn rest =>
          simp only [hs, Option.some.injEq] at h; subst h
          have hne' : id ≠ m.MemberId := fun he => hne he.symm
          show List.lookup id (st.members ++ _) = _
          rw [List.lookup_append]
          rw [show List.lookup id [(m.MemberId,
                ({ member_id := m.MemberId, first_name := fn, surname := rest.headD "",
                   party := pyOr m.PartyAbbreviation m.Party,
                   division_votes := [(d, v)] } : MemberDat))] = none from by
            simp [lookup_cons, hne']]
          cases List.lookup id st.members <;> rfl

theorem option_some_bind {α β : Type} (a : α) (f : α → Option β) :
    (some a).bind f = f a := rfl

theorem option_none_bind {α β : Type} (f : α → Option β) :
    (none : Option α).bind f = none := rfl

theorem option_some_or {α : Type} (a : α) (o : Option α) : (some a).or o = some a := rfl

theorem option_none_or {α : Type} (o : Option α) : (none : Option α).or o = o := rfl

theorem lookup_singleton {α : Type} (a : Nat) (v : α) : List.lookup a [(a, v)] = some v := by
  rw [lookup_cons, if_pos rfl]

theorem aom_isSome_of_nameOk {st : St} {d : Nat} {m : MemberDto} {v : Vote}
    (hok : nameOk m = true) : (addOneMember st d m v).isSome = true := by
  unfold addOneMember
  cases hm : List.lookup m.MemberId st.members with
  | some md => cases hv : List.lookup d md.division_votes <;> simp [hv]
  | none =>
      cases hs : splitMaxsplit1 m.Name with
      | nil => rw [nameOk, hs] at hok; simp at hok
      | cons fn rest => simp [hs]

theorem aom_conflict_eq {st : St} {d : Nat} {m : MemberDto} {v w : Vote}
    (h : lookupVote st.members m.MemberId d = some w) :
    addOneMember st d m v =
      some { st with conflicts := st.conflicts ++ [⟨m.MemberId, d, v, w⟩] } := by
  cases hm : List.lookup m.MemberId st.members with
  | none =>
      unfold lookupVote at h
      rw [hm, option_none_bind] at h
      exact Option.noConfusion h
  | some md =>
      unfold lookupVote at h
      rw [hm, option_some_bind] at h
      unfold addOneMember
      simp only [hm, h]

theorem aom_fresh_set {st : St} {d : Nat} {m : MemberDto} {v : Vote} {st' : St}
    (hfresh : lookupVote st.members m.MemberId d = none)
    (h : addOneMember st d m v = some st') :
    lookupVote st'.members m.MemberId d = some v := by
  unfold addOneMember at h
  cases hm : List.lookup m.MemberId st.members with
  | some md =>
      have hfresh2 : List.lookup d md.division_votes = none := by
        unfold lookupVote at hfresh
        rw [hm, option_some_bind] at hfresh
        exact hfresh
      simp only [hm, hfresh2, Option.some.injEq] at h
      subst h
      unfold lookupVote
      rw [lookup_dictSet, if_pos rfl, option_some_bind]
      show List.lookup d (md.division_votes ++ [(d, v)]) = some v
      rw [lookup_append_none hfresh2, lookup_singleton]
  | none =>
      simp only [hm] at h
      cases hs : splitMaxsplit1 m.Name with
      | nil => simp [hs] at h
      | cons fn rest =>
          simp only [hs, Option.some.injEq] at h
          subst h
          unfold lookupVote
          show (List.lookup m.MemberId (st.members ++ _)).bind _ = some v
          rw [List.lookup_append, hm, option_none_or, lookup_singleton, option_some_bind]
          show List.lookup d [(d, v)] = some v
          rw [lookup_singleton]

theorem aom_inv {st : St} {d : Nat} {m : MemberDto} {v : Vote} {st' : St}
    (hd : (List.lookup d st.divisions).isSome = true)
    (hinv : registryInv st)
    (h : addOneMember st d m v = some st') : registryInv st' := by
  have hdiv : st'.divisions = st.divisions := (aom_extends h).1
  intro id md0 h0 d0 v0 hv0
  rw [hdiv]
  unfold addOneMember at h
  cases hm : List.lookup m.MemberId st.members with
  | some md =>
      simp only [hm] at h
      cases hv : List.lookup d md.division_votes with
      | some ex =>
          simp only [hv, Option.some.injEq] at h; subst h
          exact hinv id md0 h0 d0 v0 hv0
      | none =>
          simp only [hv, Option.some.injEq] at h; subst h
          have h0' : List.lookup id (dictSet st.members m.MemberId
              { md with division_votes := md.division_votes ++ [(d, v)] }) = some md0 := h0
          rw [lookup_dictSet] at h0'
          by_cases hid : id = m.MemberId
          · rw [if_pos hid] at h0'
            injection h0' with h0'
            subst h0'
            have hv0' : List.lookup d0 (md.division_votes ++ [(d, v)]) = some v0 := hv0
            rw [List.lookup_append] at hv0'
            cases ho : List.lookup d0 md.division_votes with
            | some w => exact hinv m.MemberId md hm d0 w ho
            | none =>
                rw [ho, option_none_or, lookup_cons] at hv0'
                by_cases hd0 : d0 = d
                · subst hd0; exact hd
                · rw [if_neg hd0, List.lookup_nil] at hv0'
                  exact Option.noConfusion hv0'
          · rw [if_neg hid] at h0'
            exact hinv id md0 h0' d0 v0 hv0
  | none =>
      simp only [hm] at h
      cases hs : splitMaxsplit1 m.Name with
      | nil => simp [hs] at h
      | cons fn rest =>
          simp only [hs, Option.some.injEq] at h; subst h
          have h0' : List.lookup id (st.members ++
              [(m.MemberId,
                ({ member_id := m.MemberId, first_name := fn, surname := rest.headD "",
                   party := pyOr m.PartyAbbreviation m.Party,
                   division_votes := [(d, v)] } : MemberDat))]) = some md0 := h0
          rw [List.lookup_append] at h0'
          cases ho : List.lookup id st.members with
          | some mdo =>
              rw [ho, option_some_or] at h0'
              injection h0' with h0'; subst h0'
              exact hinv id mdo ho d0 v0 hv0
          | none =>
              rw [ho, option_none_or, lookup_cons] at h0'
              by_cases hid : id = m.MemberId
              · rw [if_pos hid] at h0'
                injection h0' with h0'
                subst h0'
                have hv0' : List.lookup d0 [(d, v)] = some v0 := hv0
                rw [lookup_cons] at hv0'
                by_cases hd0 : d0 = d
                · subst hd0; exact hd
                · rw [if_neg hd0, List.lookup_nil] at hv0'
                  exact Option.noConfusion hv0'
              · rw [if_neg hid, List.lookup_nil] at h0'
                exact Option.noConfusion h0'

/-! ## Lemmas about `addMemberVoteCategory` -/

theorem membersExtend_lookupVote {a b : List (Nat × MemberDat)} {id d : Nat} {w : Vote}
    (he : membersExtend a b) (h : lookupVote a id d = some w) :
    lookupVote b id d = some w := by
  unfold lookupVote at h ⊢
  cases hm : List.lookup id a with
  | none => rw [hm, option_none_bind] at h; exact Option.noConfusion h
  | some md =>
      rw [hm, option_some_bind] at h
      obtain ⟨md', hl', _, _, _, _, hv⟩ := he id md hm
      rw [hl', option_some_bind]
      exact hv d w h

theorem amvc_extends (d : Nat) (v : Vote) : ∀ (ms : List MemberDto) (st : St),
    (addMemberVoteCategory st d ms v).1.divisions = st.divisions ∧
    membersExtend st.members (addMemberVoteCategory st d ms v).1.members ∧
    st.conflicts ⊆ (addMemberVoteCategory st d ms v).1.conflicts := by
  intro ms
  induction ms with
  | nil => intro st; exact ⟨rfl, membersExtend_refl _, fun c hc => hc⟩
  | cons m rest ih =>
      intro st
      unfold addMemberVoteCategory
      cases ha : addOneMember st d m v with
      | none => exact ⟨rfl, membersExtend_refl _, fun c hc => hc⟩
      | some st' =>
          obtain ⟨e1, e2, e3⟩ := aom_extends ha
          obtain ⟨f1, f2, f3⟩ := ih st'
          exact ⟨f1.trans e1, membersExtend_trans e2 f2, fun c hc => f3 (e3 hc)⟩

theorem amvc_flag (d : Nat) (v : Vote) : ∀ (ms : List MemberDto) (st : St),
    (∀ m ∈ ms, nameOk m = true) →
    (addMemberVoteCategory st d ms v).2 = true := by
  intro ms
  induction ms with
  | nil => intro st _; rfl
  | cons m rest ih =>
      intro st h
      unfold addMemberVoteCategory
      cases ha : addOneMember st d m v with
      | none =>
          have h2 : (addOneMember st d m v).isSome = true :=
            aom_isSome_of_nameOk (h m (List.mem_cons_self m rest))
          rw [ha] at h2
          simp at h2
      | some st' => exact ih st' (fun mm hm => h mm (List.mem_cons_of_mem _ hm))

theorem amvc_untouched (d : Nat) (v : Vote) (id : Nat) : ∀ (ms : List MemberDto) (st : St),
    (∀ m ∈ ms, m.MemberId ≠ id) →
    List.lookup id (addMemberVoteCategory st d ms v).1.members =
      List.lookup id st.members := by
  intro ms
  induction ms with
  | nil => intro st _; rfl
  | cons m rest ih =>
      intro st h
      unfold addMemberVoteCategory
      cases ha : addOneMember st d m v with
      | none => rfl
      | some st' =>
          exact (ih st' (fun mm hm => h mm (List.mem_cons_of_mem _ hm))).trans
            (aom_untouched (h m (List.mem_cons_self m rest)) ha)

theorem amvc_set (d : Nat) (v : Vote) (id : Nat) : ∀ (ms : List MemberDto) (st : St),
    (∀ m ∈ ms, nameOk m = true) →
    lookupVote st.members id d = none →
    (∃ mm, mm ∈ ms ∧ mm.MemberId = id) →
    lookupVote (addMemberVoteCategory st d ms v).1.members id d = some v := by
  intro ms
  induction ms with
  | nil =>
      intro st _ _ hex
      obtain ⟨mm, hmm, _⟩ := hex
      exact absurd hmm (List.not_mem_nil mm)
  | cons m rest ih =>
      intro st hok hfresh hex
      obtain ⟨mm, hmm, hid⟩ := hex
      unfold addMemberVoteCategory
      cases ha : addOneMember st d m v with
      | none =>
          have h2 : (addOneMember st d m v).isSome = true :=
            aom_isSome_of_nameOk (hok m (List.mem_cons_self m rest))
          rw [ha] at h2
          simp at h2
      | some st' =>
          by_cases hm : m.MemberId = id
          · have hfresh' : lookupVote st.members m.MemberId d = none := by
              rw [hm]; exact hfresh
            have hset : lookupVote st'.members id d = some v := by
              rw [← hm]; exact aom_fresh_set hfresh' ha
            exact membersExtend_lookupVote (amvc_extends d v rest st').2.1 hset
          · have hfresh' : lookupVote st'.members id d = none := by
              unfold lookupVote at hfresh ⊢
              rw [aom_untouched hm ha]
              exact hfresh
            have hmm' : mm ∈ rest := by
              rcases List.mem_cons.mp hmm with he | hr
              · exact absurd (he ▸ hid) hm
              · exact hr
            exact ih st' (fun x hx => hok x (List.mem_cons_of_mem _ hx)) hfresh'
              ⟨mm, hmm', hid⟩

theorem amvc_conflict (d : Nat) (v : Vote) (id : Nat) (w : Vote) :
    ∀ (ms : List MemberDto) (st : St),
    (∀ m ∈ ms, nameOk m = true) →
    lookupVote st.members id d = some w →
    (∃ mm, mm ∈ ms ∧ mm.MemberId = id) →
    Conflict.mk id d v w ∈ (addMemberVoteCategory st d ms v).1.conflicts := by
  intro ms
  induction ms with
  | nil =>
      intro st _ _ hex
      obtain ⟨mm, hmm, _⟩ := hex
      exact absurd hmm (List.not_mem_nil mm)
  | cons m rest ih =>
      intro st hok hst hex
      obtain ⟨mm, hmm, hid⟩ := hex
      unfold addMemberVoteCategory
      cases ha : addOneMember st d m v with
      | none =>
          have h2 : (addOneMember st d m v).isSome = true :=
            aom_isSome_of_nameOk (hok m (List.mem_cons_self m rest))
          rw [ha] at h2
          simp at h2
      | some st' =>
          by_cases hm : m.MemberId = id
          · have hst'' : lookupVote st.members m.MemberId d = some w := by
              rw [hm]; exact hst
            have heq := aom_conflict_eq (v := v) hst''
            rw [ha] at heq
            injection heq with heq
            have hc : Conflict.mk id d v w ∈ st'.conflicts := by
              rw [heq, hm]
              exact List.mem_append_right _ (List.mem_singleton.mpr rfl)
            exact (amvc_extends d v rest st').2.2 hc
          · have hst' : lookupVote st'.members id d = some w :=
              membersExtend_lookupVote (aom_extends ha).2.1 hst
            have hmm' : mm ∈ rest := by
              rcases List.mem_cons.mp hmm with he | hr
              · exact absurd (he ▸ hid) hm
              · exact hr
            exact ih st' (fun x hx => hok x (List.mem_cons_of_mem _ hx)) hst'
              ⟨mm, hmm', hid⟩

theorem amvc_inv (d : Nat) (v : Vote) : ∀ (ms : List MemberDto) (st : St),
    (List.lookup d st.divisions).isSome = true → registryInv st →
    registryInv (addMemberVoteCategory st d ms v).1 := by
  intro ms
  induction ms with
  | nil => intro st _ hinv; exact hinv
  | cons m rest ih =>
      intro st hd hinv
      unfold addMemberVoteCategory
      cases ha : addOneMember st d m v with
      | none => exact hinv
      | some st' =>
          have hdiv : st'.divisions = st.divisions := (aom_extends ha).1
          exact ih st' (by rw [hdiv]; exact hd) (aom_inv hd hinv ha)

/-! ## Lemmas about `applyCategories` -/

theorem apc_extends (d : Nat) : ∀ (cats : List (List MemberDto × Vote)) (st : St),
    (applyCategories st d cats).1.divisions = st.divisions ∧
    membersExtend st.members (applyCategories st d cats).1.members ∧
    st.conflicts ⊆ (applyCategories st d cats).1.conflicts := by
  intro cats
  induction cats with
  | nil => intro st; exact ⟨rfl, membersExtend_refl _, fun c hc => hc⟩
  | cons p rest ih =>
      intro st
      obtain ⟨ms, v⟩ := p
      unfold applyCategories
      cases hc : addMemberVoteCategory st d ms v with
      | mk st' flag =>
          have h1 := amvc_extends d v ms st
          rw [hc] at h1
          cases flag with
          | false => exact h1
          | true =>
              obtain ⟨f1, f2, f3⟩ := ih st'
              exact ⟨f1.trans h1.1, membersExtend_trans h1.2.1 f2,
                fun c hcc => f3 (h1.2.2 hcc)⟩

theorem apc_inv (d : Nat) : ∀ (cats : List (List MemberDto × Vote)) (st : St),
    (List.lookup d st.divisions).isSome = true → registryInv st →
    registryInv (applyCategories st d cats).1 := by
  intro cats
  induction cats with
  | nil => intro st _ hinv; exact hinv
  | cons p rest ih =>
      intro st hd hinv
      obtain ⟨ms, v⟩ := p
      unfold applyCategories
      cases hc : addMemberVoteCategory st d ms v with
      | mk st' flag =>
          have h1 := amvc_inv d v ms st hd hinv
          have h2 := (amvc_extends d v ms st).1
          rw [hc] at h1 h2
          cases flag with
          | false => exact h1
          | true => exact ih st' (by rw [h2]; exact hd) h1

theorem apc_conflict (d : Nat) (id : Nat) (w : Vote) :
    ∀ (cats : List (List MemberDto × Vote)) (st : St),
    (∀ p ∈ cats, ∀ m ∈ p.1, nameOk m = true) →
    lookupVote st.members id d = some w →
    ∀ (j : Nat) (hj : j < cats.length),
    (∃ mm, mm ∈ (cats.get ⟨j, hj⟩).1 ∧ mm.MemberId = id) →
    Conflict.mk id d (cats.get ⟨j, hj⟩).2 w ∈ (applyCategories st d cats).1.conflicts := by
  intro cats
  induction cats with
  | nil => intro st _ _ j hj; exact absurd hj (Nat.not_lt_zero j)
  | cons p rest ih =>
      intro st hok hst j hj hex
      obtain ⟨ms, v⟩ := p
      unfold applyCategories
      cases hc : addMemberVoteCategory st d ms v with
      | mk st' flag =>
          have hflag : flag = true := by
            have h2 := amvc_flag d v ms st (hok (ms, v) (List.mem_cons_self _ rest))
            rw [hc] at h2
            exact h2
          subst hflag
          cases j with
          | zero =>
              have hc0 : Conflict.mk id d v w ∈
                  (addMemberVoteCategory st d ms v).1.conflicts :=
                amvc_conflict d v id w ms st (hok (ms, v) (List.mem_cons_self _ rest)) hst hex
              rw [hc] at hc0
              exact (apc_extends d rest st').2.2 hc0
          | succ j' =>
              have hext := (amvc_extends d v ms st).2.1
              rw [hc] at hext
              have hst' : lookupVote st'.members id d = some w :=
                membersExtend_lookupVote hext hst
              exact ih st' (fun q hq => hok q (List.mem_cons_of_mem _ hq)) hst' j'
                (Nat.lt_of_succ_lt_succ hj) hex

theorem apc_first_wins (d : Nat) (id : Nat) :
    ∀ (cats : List (List MemberDto × Vote)) (st : St),
    (∀ p ∈ cats, ∀ m ∈ p.1, nameOk m = true) →
    lookupVote st.members id d = none →
    ∀ (i j : Nat) (hij : i < j) (hj : j < cats.length),
    (∀ k (hk : k < i), ∀ m ∈ (cats.get ⟨k, Nat.lt_trans (Nat.lt_trans hk hij) hj⟩).1,
      m.MemberId ≠ id) →
    (∃ mm, mm ∈ (cats.get ⟨i, Nat.lt_trans hij hj⟩).1 ∧ mm.MemberId = id) →
    (∃ mm, mm ∈ (cats.get ⟨j, hj⟩).1 ∧ mm.MemberId = id) →
    lookupVote (applyCategories st d cats).1.members id d
        = some (cats.get ⟨i, Nat.lt_trans hij hj⟩).2
      ∧ Conflict.mk id d (cats.get ⟨j, hj⟩).2 (cats.get ⟨i, Nat.lt_trans hij hj⟩).2
        ∈ (applyCategories st d cats).1.conflicts := by
  intro cats
  induction cats with
  | nil => intro st _ _ i j hij hj; exact absurd hj (Nat.not_lt_zero j)
  | cons p rest ih =>
      intro st hok hfresh i j hij hj hbefore hexi hexj
      obtain ⟨ms, v⟩ := p
      unfold applyCategories
      cases hc : addMemberVoteCategory st d ms v with
      | mk st' flag =>
          have hflag : flag = true := by
            have h2 := amvc_flag d v ms st (hok (ms, v) (List.mem_cons_self _ rest))
            rw [hc] at h2
            exact h2
          subst hflag
          cases i with
          | zero =>
              have hset : lookupVote st'.members id d = some v := by
                have h3 := amvc_set d v id ms st (hok (ms, v) (List.mem_cons_self _ rest))
                  hfresh hexi
                rw [hc] at h3
                exact h3
              cases j with
              | zero => exact absurd hij (Nat.lt_irrefl 0)
              | succ j' =>
                  constructor
                  · have hext := (apc_extends d rest st').2.1
                    exact membersExtend_lookupVote hext hset
                  · exact apc_conflict d id v rest st'
                      (fun q hq => hok q (List.mem_cons_of_mem _ hq)) hset j'
                      (Nat.lt_of_succ_lt_succ hj) hexj
          | succ i' =>
              cases j with
              | zero => exact absurd hij (Nat.not_lt_zero _)
              | succ j' =>
                  have hhead : ∀ m ∈ ms, m.MemberId ≠ id := by
                    intro m hm
                    exact hbefore 0 (Nat.zero_lt_succ i') m hm
                  have hfresh' : lookupVote st'.members id d = none := by
                    have h4 := amvc_untouched d v id ms st hhead
                    rw [hc] at h4
                    unfold lookupVote at hfresh ⊢
                    rw [h4]
                    exact hfresh
                  exact ih st' (fun q hq => hok q (List.mem_cons_of_mem _ hq)) hfresh'
                    i' j' (Nat.lt_of_succ_lt_succ hij) (Nat.lt_of_succ_lt_succ hj)
                    (fun k hk m hm => hbefore (k + 1) (Nat.succ_lt_succ hk) m hm)
                    hexi hexj

/-! ## Lemmas about `processParsed`, `readOneDivision`, `read_divisions` -/

theorem processParsed_extends (st : St) (ds de : Datetime) (dto : DivisionDto) :
    membersExtend st.members (processParsed st ds de dto).members ∧
    st.conflicts ⊆ (processParsed st ds de dto).conflicts := by
  unfold processParsed
  cases hb : dtLt dto.Date ds || dtLt de dto.Date with
  | true => simp only [hb, if_true]; exact ⟨membersExtend_refl _, fun c hc => hc⟩
  | false =>
      simp only [hb, Bool.false_eq_true, if_false]
      have h := apc_extends dto.DivisionId (divisionCategories dto) (storeDivision st dto)
      exact ⟨h.2.1, h.2.2⟩

theorem processParsed_inv (st : St) (ds de : Datetime) (dto : DivisionDto)
    (hinv : registryInv st) : registryInv (processParsed st ds de dto) := by
  unfold processParsed
  cases hb : dtLt dto.Date ds || dtLt de dto.Date with
  | true => simp only [hb, if_true]; exact hinv
  | false =>
      simp only [hb, Bool.false_eq_true, if_false]
      refine apc_inv dto.DivisionId (divisionCategories dto) (storeDivision st dto) ?_ ?_
      · show (List.lookup dto.DivisionId
            (dictSet st.divisions dto.DivisionId ⟨dto.DivisionId, dto.Date, dto.Title⟩)).isSome
            = true
        rw [lookup_dictSet, if_pos rfl]
        rfl
      · intro id md h0 d0 v0 hv0
        show (List.lookup d0
            (dictSet st.divisions dto.DivisionId ⟨dto.DivisionId, dto.Date, dto.Title⟩)).isSome
            = true
        rw [lookup_dictSet]
        by_cases hd0 : d0 = dto.DivisionId
        · rw [if_pos hd0]; rfl
        · rw [if_neg hd0]
          exact hinv id md h0 d0 v0 hv0

theorem processParsed_divisions_set (st : St) (ds de : Datetime) (dto : DivisionDto)
    (h : (dtLt dto.Date ds || dtLt de dto.Date) = false) :
    List.lookup dto.DivisionId (processParsed st ds de dto).divisions =
      some ⟨dto.DivisionId, dto.Date, dto.Title⟩ := by
  unfold processParsed
  simp only [h, Bool.false_eq_true, if_false]
  rw [(apc_extends dto.DivisionId (divisionCategories dto) (storeDivision st dto)).1]
  show List.lookup dto.DivisionId
      (dictSet st.divisions dto.DivisionId ⟨dto.DivisionId, dto.Date, dto.Title⟩) = _
  rw [lookup_dictSet, if_pos rfl]

theorem readOneDivision_success (st : St) (ds de : Datetime) (raw : RawDivision) :
    readOneDivision st ds de (.success raw) =
      match parseDivisionDto raw with
      | .error _ => st
      | .ok dto => processParsed st ds de dto := rfl

theorem readOneDivision_extends (st : St) (ds de : Datetime) (f : Fetched) :
    membersExtend st.members (readOneDivision st ds de f).members ∧
    st.conflicts ⊆ (readOneDivision st ds de f).conflicts := by
  cases f with
  | failure => exact ⟨membersExtend_refl _, fun c hc => hc⟩
  | success raw =>
      rw [readOneDivision_success]
      cases hp : parseDivisionDto raw with
      | error e => exact ⟨membersExtend_refl _, fun c hc => hc⟩
      | ok dto => exact processParsed_extends st ds de dto

theorem readOneDivision_inv (st : St) (ds de : Datetime) (f : Fetched)
    (hinv : registryInv st) : registryInv (readOneDivision st ds de f) := by
  cases f with
  | failure => exact hinv
  | success raw =>
      rw [readOneDivision_success]
      cases hp : parseDivisionDto raw with
      | error e => exact hinv
      | ok dto => exact processParsed_inv st ds de dto hinv

theorem read_divisions_cons (st : St) (ds de : Datetime) (f : Fetched) (fs : List Fetched) :
    read_divisions st ds de (f :: fs) = read_divisions (readOneDivision st ds de f) ds de fs :=
  rfl

theorem read_divisions_extends (ds de : Datetime) : ∀ (fs : List Fetched) (st : St),
    membersExtend st.members (read_divisions st ds de fs).members ∧
    st.conflicts ⊆ (read_divisions st ds de fs).conflicts := by
  intro fs
  induction fs with
  | nil => intro st; exact ⟨membersExtend_refl _, fun c hc => hc⟩
  | cons f rest ih =>
      intro st
      rw [read_divisions_cons]
      obtain ⟨e1, e2⟩ := readOneDivision_extends st ds de f
      obtain ⟨f1, f2⟩ := ih (readOneDivision st ds de f)
      exact ⟨membersExtend_trans e1 f1, fun c hc => f2 (e2 hc)⟩

theorem read_divisions_inv (ds de : Datetime) : ∀ (fs : List Fetched) (st : St),
    registryInv st → registryInv (read_divisions st ds de fs) := by
  intro fs
  induction fs with
  | nil => intro st hinv; exact hinv
  | cons f rest ih =>
      intro st hinv
      rw [read_divisions_cons]
      exact ih _ (readOneDivision_inv st ds de f hinv)

/-! ## Small characterizations used by the claim theorems -/

theorem amvc_cons (st : St) (d : Nat) (m : MemberDto) (rest : List MemberDto) (v : Vote) :
    addMemberVoteCategory st d (m :: rest) v =
      match addOneMember st d m v with
      | none => (st, false)
      | some st' => addMemberVoteCategory st' d rest v := rfl

theorem datCell_eq (members : List (Nat × MemberDat)) (mp_id d : Nat) :
    datCell members mp_id d = (lookupVote members mp_id d).getD Vote.Missing := by
  unfold datCell lookupVote
  cases List.lookup mp_id members with
  | none => rfl
  | some md => rfl

/-! ## Claim theorems -/

/-- C1 (counterexample): processing two documents that carry the same
division id 5 leaves the SECOND record (date `dtJan2`, title "B") in
the registry: the originally stored EventSummary is overwritten and no
duplicate-event condition is signalled, contrary to the claim. -/
theorem c1_counterexample :
    List.lookup 5 (read_divisions emptySt DATE_START DATE_END
        [.success rawFirst, .success rawSecond]).divisions
      = some ⟨5, dtJan2, "B"⟩
    ∧ (⟨5, dtJan2, "B"⟩ : DivisionDat) ≠ ⟨5, dtJan1, "A"⟩ :=
  ⟨rfl, by decide⟩

/-- C1 (amended): for every admitted division document, the division
store is an unconditional dict assignment: afterwards the event
registry maps the division id to exactly the new record (a previously
stored record with the same id is overwritten), and no duplicate-event
condition is signalled. -/
theorem c1_event_registration_overwrites (st : St) (ds de : Datetime) (dto : DivisionDto)
    (hdate : (dtLt dto.Date ds || dtLt de dto.Date) = false) :
    List.lookup dto.DivisionId (processParsed st ds de dto).divisions =
      some ⟨dto.DivisionId, dto.Date, dto.Title⟩ :=
  processParsed_divisions_set st ds de dto hdate

theorem c1_witness :
    List.lookup 5 (processParsed (processParsed emptySt DATE_START DATE_END dtoA)
        DATE_START DATE_END dtoB).divisions = some ⟨5, dtJan2, "B"⟩ :=
  c1_event_registration_overwrites (processParsed emptySt DATE_START DATE_END dtoA)
    DATE_START DATE_END dtoB (by decide)

/-- C2 (counterexample): a division dated 2024-07-03 14:30 lies on
exactly `range_end` at date-only granularity (the spec-side predicate
admits it), yet the code's filter rejects it and the division is left
unprocessed: time-of-day is not discarded before comparison. -/
theorem c2_counterexample :
    specAdmitDateOnly dtNoonEnd DATE_START DATE_END = true
    ∧ (dtLt dtoNoon.Date DATE_START || dtLt DATE_END dtoNoon.Date) = true
    ∧ processParsed emptySt DATE_START DATE_END dtoNoon = emptySt
    ∧ List.lookup 1 (processParsed emptySt DATE_START DATE_END dtoNoon).divisions = none :=
  ⟨rfl, rfl, rfl, rfl⟩

/-- C2 (amended): the date filter compares complete timestamps (the
configured bounds carry midnight time-of-day): a division is skipped
exactly when `dto.Date < date_start` or `dto.Date > date_end` as full
datetimes, equivalently admitted iff
`date_start <= dto.Date <= date_end` in the full lexicographic
datetime order; time-of-day is not discarded. -/
theorem c2_filter_full_datetime (st : St) (ds de : Datetime) (dto : DivisionDto) :
    ((dtLt dto.Date ds || dtLt de dto.Date) = true → processParsed st ds de dto = st)
    ∧ ((dtLt dto.Date ds || dtLt de dto.Date) = false
        ↔ (dtLe ds dto.Date && dtLe dto.Date de) = true) := by
  constructor
  · intro h
    unfold processParsed
    simp only [h, if_true]
  · unfold dtLe
    cases h1 : dtLt dto.Date ds <;> cases h2 : dtLt de dto.Date <;> simp [h1, h2]

theorem c2_witness : processParsed emptySt DATE_START DATE_END dtoNoon = emptySt :=
  (c2_filter_full_datetime emptySt DATE_START DATE_END dtoNoon).1 rfl

/-- C3: a fetch failure or a decode failure (including a malformed
entity record inside the event, which fails the whole division's
decode before any mutation) leaves the processor state exactly as it
was: the failed event id is absent from both registries as if the
event had never been seen. -/
theorem c3_failed_event_absent (st : St) (ds de : Datetime) (raw : RawDivision) (e : String) :
    readOneDivision st ds de .failure = st
    ∧ (parseDivisionDto raw = .error e → readOneDivision st ds de (.success raw) = st) := by
  refine ⟨rfl, ?_⟩
  intro h
  rw [readOneDivision_success, h]

theorem c3_witness :
    readOneDivision stJo DATE_START DATE_END .failure = stJo
    ∧ readOneDivision stJo DATE_START DATE_END (.success rawBadMember) = stJo :=
  ⟨(c3_failed_event_absent stJo DATE_START DATE_END rawBadMember
      "missing required MemberDto field").1,
   (c3_failed_event_absent stJo DATE_START DATE_END rawBadMember
      "missing required MemberDto field").2 rfl⟩

/-- C4: when member `m` already has a stored outcome `w` for division
`d`, a second assignment attempt returns the state unchanged except
for exactly one appended conflict carrying the member id, the division
id and both outcomes; the stored outcome stays intact, no exception is
raised, and processing continues with the remaining members of the
category. -/
theorem c4_duplicate_vote_conflict (st : St) (d : Nat) (m : MemberDto) (v w : Vote)
    (rest : List MemberDto)
    (h : lookupVote st.members m.MemberId d = some w) :
    addOneMember st d m v =
        some { st with conflicts := st.conflicts ++ [⟨m.MemberId, d, v, w⟩] }
    ∧ addMemberVoteCategory st d (m :: rest) v =
        addMemberVoteCategory
          { st with conflicts := st.conflicts ++ [⟨m.MemberId, d, v, w⟩] } d rest v := by
  have h1 : addOneMember st d m v =
      some { st with conflicts := st.conflicts ++ [⟨m.MemberId, d, v, w⟩] } :=
    aom_conflict_eq h
  exact ⟨h1, by rw [amvc_cons, h1]⟩

theorem c4_witness :
    addOneMember stJo 9 mJSmith Vote.No =
        some { stJo with conflicts := stJo.conflicts ++ [⟨7, 9, Vote.No, Vote.Aye⟩] }
    ∧ addMemberVoteCategory stJo 9 [mJSmith] Vote.No =
        addMemberVoteCategory
          { stJo with conflicts := stJo.conflicts ++ [⟨7, 9, Vote.No, Vote.Aye⟩] }
          9 [] Vote.No :=
  c4_duplicate_vote_conflict stJo 9 mJSmith Vote.No Vote.Aye [] rfl

/-- C5: the five vote categories of an admitted division are exactly
affirmative, affirmative-tellers, negative, negative-tellers,
not-recorded with outcome codes Aye, AyeTeller, No, NoTeller, Missing,
applied in this order; when one entity id occurs first in category `i`
and again in a later category `j`, the stored outcome is that of
category `i` and category `j` produces a logged conflict carrying both
outcomes — never a silent overwrite. -/
theorem c5_category_order_first_wins (st : St) (ds de : Datetime) (dto : DivisionDto)
    (id : Nat) (i j : Nat)
    (hdate : (dtLt dto.Date ds || dtLt de dto.Date) = false)
    (hok : ∀ p ∈ divisionCategories dto, ∀ m ∈ p.1, nameOk m = true)
    (hij : i < j) (hj : j < (divisionCategories dto).length)
    (hfresh : lookupVote st.members id dto.DivisionId = none)
    (hbefore : ∀ k (hk : k < i),
      ∀ m ∈ ((divisionCategories dto).get ⟨k, Nat.lt_trans (Nat.lt_trans hk hij) hj⟩).1,
        m.MemberId ≠ id)
    (hexi : ∃ mm, mm ∈ ((divisionCategories dto).get ⟨i, Nat.lt_trans hij hj⟩).1
        ∧ mm.MemberId = id)
    (hexj : ∃ mm, mm ∈ ((divisionCategories dto).get ⟨j, hj⟩).1 ∧ mm.MemberId = id) :
    divisionCategories dto =
      [ (dto.Ayes, Vote.Aye), (dto.AyeTellers, Vote.AyeTeller), (dto.Noes, Vote.No),
        (dto.NoTellers, Vote.NoTeller), (dto.NoVoteRecorded, Vote.Missing) ]
    ∧ lookupVote (processParsed st ds de dto).members id dto.DivisionId
        = some ((divisionCategories dto).get ⟨i, Nat.lt_trans hij hj⟩).2
    ∧ Conflict.mk id dto.DivisionId ((divisionCategories dto).get ⟨j, hj⟩).2
        ((divisionCategories dto).get ⟨i, Nat.lt_trans hij hj⟩).2
        ∈ (processParsed st ds de dto).conflicts := by
  refine ⟨rfl, ?_⟩
  unfold processParsed
  simp only [hdate, Bool.false_eq_true, if_false]
  have hfresh' : lookupVote (storeDivision st dto).members id dto.DivisionId = none := hfresh
  exact apc_first_wins dto.DivisionId id (divisionCategories dto) (storeDivision st dto)
    hok hfresh' i j hij hj hbefore hexi hexj

theorem c5_witness :
    lookupVote (processParsed emptySt DATE_START DATE_END dtoDup).members 7 9 = some Vote.Aye
    ∧ Conflict.mk 7 9 Vote.No Vote.Aye
        ∈ (processParsed emptySt DATE_START DATE_END dtoDup).conflicts := by
  have h := c5_category_order_first_wins emptySt DATE_START DATE_END dtoDup 7 0 2
    (by decide) (by decide) (by decide) (by decide) rfl
    (fun k hk => absurd hk (Nat.not_lt_zero k))
    ⟨mJoSmith, by decide, rfl⟩ ⟨mJSmith, by decide, rfl⟩
  exact ⟨h.2.1, h.2.2⟩

/-- C6: a stored EntitySummary is never overwritten: whatever member
record is stored at any point keeps its first name, surname and party
through any continuation of the run, no matter how the same member id
reappears (with different name or party) in later events. -/
theorem c6_first_seen_identity (st : St) (ds de : Datetime) (fs : List Fetched)
    (id : Nat) (md : MemberDat) (h : List.lookup id st.members = some md) :
    ∃ md', List.lookup id (read_divisions st ds de fs).members = some md'
      ∧ md'.first_name = md.first_name ∧ md'.surname = md.surname
      ∧ md'.party = md.party := by
  obtain ⟨md', hl, _, e2, e3, e4, _⟩ := (read_divisions_extends ds de fs st).1 id md h
  exact ⟨md', hl, e2, e3, e4⟩

theorem c6_witness :
    ∃ md', List.lookup 7 (read_divisions stJo DATE_START DATE_END
        [.success rawEvt10]).members = some md'
      ∧ md'.first_name = "Jo" ∧ md'.surname = "Smith" ∧ md'.party = "X" :=
  c6_first_seen_identity stJo DATE_START DATE_END [.success rawEvt10] 7 mdJoStored rfl

/-- C7 (counterexample): member 7 carries a present-but-empty party
abbreviation together with the full party name "Labour"; the created
record stores "Labour", not the abbreviation, because Python's `or`
treats the empty string like an absent value. -/
theorem c7_counterexample :
    mEmptyAbbr.PartyAbbreviation = some ""
    ∧ (addOneMember emptySt 1 mEmptyAbbr Vote.Aye).map
        (fun s => (List.lookup 7 s.members).map (fun md => md.party))
        = some (some "Labour")
    ∧ ("Labour" : String) ≠ "" :=
  ⟨rfl, rfl, by decide⟩

/-- C7 (amended): the stored party of a newly created member record is
the abbreviation when it is present AND nonempty, and the full party
name when the abbreviation is absent or the empty string. -/
theorem c7_party_choice (st : St) (d : Nat) (m : MemberDto) (v : Vote) (st' : St)
    (habs : List.lookup m.MemberId st.members = none)
    (h : addOneMember st d m v = some st') :
    ∃ md, List.lookup m.MemberId st'.members = some md
      ∧ md.party = (match m.PartyAbbreviation with
                    | some a => if a = "" then m.Party else a
                    | none => m.Party) := by
  unfold addOneMember at h
  simp only [habs] at h
  cases hs : splitMaxsplit1 m.Name with
  | nil => simp [hs] at h
  | cons fn rest =>
      simp only [hs, Option.some.injEq] at h
      subst h
      refine ⟨{ member_id := m.MemberId, first_name := fn, surname := rest.headD "",
                party := pyOr m.PartyAbbreviation m.Party,
                division_votes := [(d, v)] }, ?_, ?_⟩
      · exact (lookup_append_none habs).trans (lookup_singleton _ _)
      · show pyOr m.PartyAbbreviation m.Party = _
        cases m.PartyAbbreviation with
        | none => rfl
        | some a => rfl

theorem c7_witness :
    ∃ md, List.lookup 7 stLab.members = some md
      ∧ md.party = (match mLab.PartyAbbreviation with
                    | some a => if a = "" then mLab.Party else a
                    | none => mLab.Party) :=
  c7_party_choice emptySt 1 mLab Vote.Aye stLab rfl (by decide)

/-- C8: every data row of the materialized matrix consists of the four
metadata fields followed by one cell per member id in sorted order,
where each cell is exactly the stored VoteOutcome for that
(member, division) pair when one exists and `Missing` (-9) otherwise —
uniformly, including member ids with no vote mapping entry for the
division and member ids whose record lacks the division entirely. -/
theorem c8_default_fill (members : List (Nat × MemberDat)) (division : DivisionDat) :
    datRow members division =
      [ toString division.division_id, formatDate division.date,
        toString division.division_id, division.bill_name ]
      ++ (datMpIds members).map (fun mp_id =>
           toString (Vote.toInt
             (match lookupVote members mp_id division.division_id with
              | some v => v
              | none => Vote.Missing))) := by
  unfold datRow
  have hfun : (fun mp_id => toString (Vote.toInt (datCell members mp_id division.division_id)))
      = (fun mp_id => toString (Vote.toInt
          (match lookupVote members mp_id division.division_id with
           | some v => v
           | none => Vote.Missing))) := by
    funext mp
    rw [datCell_eq]
    cases lookupVote members mp division.division_id with
    | none => rfl
    | some v => rfl
  rw [hfun]

/-- C9: the materialized matrix orders data rows ascending by division
id and vote columns ascending by member id, and these orders depend
only on the key sets of the registries, not on insertion order. -/
theorem c9_deterministic_ordering (divisions1 divisions2 : List (Nat × DivisionDat))
    (members1 members2 : List (Nat × MemberDat))
    (hd : (divisions1.map Prod.fst).Perm (divisions2.map Prod.fst))
    (hm : (members1.map Prod.fst).Perm (members2.map Prod.fst)) :
    List.Sorted (· ≤ ·) (datRowIds divisions1) ∧ List.Sorted (· ≤ ·) (datMpIds members1)
    ∧ datRowIds divisions1 = datRowIds divisions2 ∧ datMpIds members1 = datMpIds members2 := by
  refine ⟨List.sorted_insertionSort _ _, List.sorted_insertionSort _ _, ?_, ?_⟩
  · exact List.eq_of_perm_of_sorted
      (((List.perm_insertionSort _ _).trans hd).trans (List.perm_insertionSort _ _).symm)
      (List.sorted_insertionSort _ _) (List.sorted_insertionSort _ _)
  · exact List.eq_of_perm_of_sorted
      (((List.perm_insertionSort _ _).trans hm).trans (List.perm_insertionSort _ _).symm)
      (List.sorted_insertionSort _ _) (List.sorted_insertionSort _ _)

theorem c9_witness :
    List.Sorted (· ≤ ·) (datRowIds divsA) ∧ List.Sorted (· ≤ ·) (datMpIds memsA)
    ∧ datRowIds divsA = datRowIds divsB ∧ datMpIds memsA = datMpIds memsB :=
  c9_deterministic_ordering divsA divsB memsA memsB (by decide) (by decide)

/-- C10: the invariant "every division id appearing in any member's
vote mapping is a key of the division registry" is preserved by a whole
run: admitted divisions are registered before their categories are
applied, and votes are only ever added under the current division id. -/
theorem c10_votes_imply_registered_event (st : St) (ds de : Datetime) (fs : List Fetched)
    (hinv : registryInv st) : registryInv (read_divisions st ds de fs) :=
  read_divisions_inv ds de fs st hinv

theorem c10_witness :
    registryInv (read_divisions emptySt DATE_START DATE_END
      [.success rawEvt9, .success rawEvt10, .failure]) :=
  c10_votes_imply_registered_event emptySt DATE_START DATE_END
    [.success rawEvt9, .success rawEvt10, .failure]
    (fun _ _ h => Option.noConfusion h)
